import Mathlib

/-!
Verification of the structural source analyzer and chunk extractor of
`backend/app/services/code_parser_service.py`.

The Python module is shallowly embedded: the `ast` syntax tree is modelled by
the inductive types `PyExpr`/`PyStmt`/`PyModule` (a node carries the position
record `Pos` mirroring `lineno` / `col_offset` / `end_lineno` /
`end_col_offset`, the latter two optional to reflect the `hasattr` checks in
the source), `ast.parse` and file reading are external collaborators and enter
as an `Except` input, and the `PythonASTVisitor` traversal (dispatch via
`ast.NodeVisitor.visit` plus `generic_visit` descent into child statements)
becomes the mutual recursion `visitStmt`/`visitStmts` over an accumulating
`VState`.  Python string/list slices (which clamp out-of-range indices) are
modelled with `List.drop`/`List.take`; list indexing `source_lines[i]`
(which raises on out-of-range access) is modelled with `List.getD`, and
statements about it carry the in-bounds hypotheses satisfied by every real
parse tree.
-/

namespace CodeParser

/-- Positions a CPython `ast` node exposes: `lineno` (1-indexed) and
`col_offset` are always present on statements and expressions, while
`end_lineno` / `end_col_offset` are `Option` to model the
`hasattr(node, 'end_lineno')` / `hasattr(node, 'end_col_offset')` tests of
`_get_node_source` and `_get_end_line`. -/
structure Pos where
  lineno : Nat
  colOffset : Nat
  endLineno : Option Nat
  endColOffset : Option Nat
deriving Repr, DecidableEq

/-- Python `s[a:b]` on a string (non-negative indices; clamps like Python). -/
def pySlice (s : String) (a b : Nat) : String :=
  ⟨(s.data.drop a).take (b - a)⟩

/-- Python `s[a:]`. -/
def pyDrop (s : String) (a : Nat) : String :=
  ⟨s.data.drop a⟩

/-- Python `s[:b]`. -/
def pyTake (s : String) (b : Nat) : String :=
  ⟨s.data.take b⟩

/-- Python `'\n'.join(lines)`. -/
def pyJoin : List String → String
  | [] => ""
  | [l] => l
  | l :: l' :: rest => l ++ "\n" ++ pyJoin (l' :: rest)

/-- Character offset of column `c` of line `k` inside `pyJoin lines`
(each earlier line contributes its length plus one newline character). -/
def charOffset : List String → Nat → Nat → Nat
  | _, 0, c => c
  | [], _ + 1, c => c
  | l :: rest, k + 1, c => l.length + 1 + charOffset rest k c

/-- An expression node.  Only the shapes the analyzer inspects are
distinguished: `ast.Name` (assignment targets, `_get_name`), string
`ast.Constant` (docstring extraction); every other expression only
contributes its position (the visitor reads expressions solely through
`_get_node_source`). -/
inductive PyExpr where
  | name (id : String) (pos : Pos)
  | strConst (s : String) (pos : Pos)
  | other (pos : Pos)
deriving Repr, DecidableEq

/-- Position of an expression node. -/
def PyExpr.pos : PyExpr → Pos
  | .name _ p => p
  | .strConst _ p => p
  | .other p => p

/-- A formal parameter (`ast.arg`): its name and optional type `annotation`
(field renamed `annot` here). -/
structure Arg where
  arg : String
  annot : Option PyExpr
deriving Repr, DecidableEq

/-- A statement node.  Modelled kinds are the ones the visitor dispatches on
(`Import`, `ImportFrom`, `ClassDef`, `FunctionDef`, `Assign`), plus
`AsyncFunctionDef` (which has no `visit_` method and is only reached by
`generic_visit`), expression statements (`ast.Expr`, needed for docstrings),
and `other` covering every remaining statement kind with its child
statements (`if`/`while`/`for`/`try`/`with` bodies, `pass`, ...), which
`generic_visit` descends into.  `importStmt`/`importFrom` carry the
`(name, asname)` pairs of their `ast.alias` children. -/
inductive PyStmt where
  | importStmt (names : List (String × Option String)) (pos : Pos)
  | importFrom (module : Option String) (names : List (String × Option String)) (pos : Pos)
  | classDef (name : String) (bases : List PyExpr) (body : List PyStmt) (pos : Pos)
  | functionDef (name : String) (args : List Arg) (defaults : List PyExpr)
      (body : List PyStmt) (returns : Option PyExpr) (pos : Pos)
  | asyncFunctionDef (name : String) (args : List Arg) (defaults : List PyExpr)
      (body : List PyStmt) (returns : Option PyExpr) (pos : Pos)
  | assign (targets : List PyExpr) (value : PyExpr) (pos : Pos)
  | exprStmt (e : PyExpr) (pos : Pos)
  | other (children : List PyStmt) (pos : Pos)
deriving Repr

/-- Position of a statement node. -/
def PyStmt.pos : PyStmt → Pos
  | .importStmt _ p => p
  | .importFrom _ _ p => p
  | .classDef _ _ _ p => p
  | .functionDef _ _ _ _ _ p => p
  | .asyncFunctionDef _ _ _ _ _ p => p
  | .assign _ _ p => p
  | .exprStmt _ p => p
  | .other _ p => p

/-- `ast.Module`: the parsed file is its list of top-level statements. -/
structure PyModule where
  body : List PyStmt
deriving Repr

/-- `PythonASTVisitor._get_node_source` (lines 299-318).  Branches mirror the
source: the `hasattr(node, 'lineno') and hasattr(node, 'end_lineno')` test
(here: `endLineno` present — `lineno` always exists on modelled nodes), then
the `hasattr(node, 'col_offset') and hasattr(node, 'end_col_offset')` test
(here: `endColOffset` present — `col_offset` always exists). -/
def get_node_source (sourceLines : List String) (p : Pos) : String :=
  match p.endLineno with
  | none => ""
  | some el =>
    let startLine := p.lineno - 1
    let endLine := el - 1
    match p.endColOffset with
    | some endCol =>
      if startLine = endLine then
        pySlice (sourceLines.getD startLine "") p.colOffset endCol
      else
        pyJoin (pyDrop (sourceLines.getD startLine "") p.colOffset ::
          ((sourceLines.drop (startLine + 1)).take (endLine - (startLine + 1)) ++
            [pyTake (sourceLines.getD endLine "") endCol]))
    | none => pyJoin ((sourceLines.drop startLine).take (endLine + 1 - startLine))

/-- `ast.get_docstring(node)` as the visitor uses it: the leading
string-constant expression statement of a body, if any.  (The
`inspect.cleandoc` whitespace normalization that CPython applies is not
modelled; no claim concerns docstring contents.) -/
def getDocstring : List PyStmt → Option String
  | .exprStmt (.strConst s _) _ :: _ => some s
  | _ => none

/-- End-line resolution for expression nodes: explicit `end_lineno` when
present, else the node's own line (the modelled expression kinds carry no
line-numbered children of their own). -/
def getEndLineE (e : PyExpr) : Nat :=
  match e.pos.endLineno with
  | some x => x
  | none => e.pos.lineno

mutual
/-- `PythonASTVisitor._get_end_line` (lines 320-334) specialised to the typed
statement embedding: return the explicit `end_lineno` when present, else fold
`max` of the recursively resolved end lines over the line-numbered children
(`ast.iter_child_nodes` order), starting from the node's own `lineno`.  The
`arguments` child of a function lacks `lineno` and is skipped by the
`hasattr(child, 'lineno')` test, so only body and `returns` children count;
decorator lists and `keyword` children are not modelled (no claim touches
them). -/
def get_end_line : PyStmt → Nat
  | .importStmt _ p => p.endLineno.getD p.lineno
  | .importFrom _ _ p => p.endLineno.getD p.lineno
  | .classDef _ bases body p =>
    match p.endLineno with
    | some e => e
    | none => maxOverStmts (bases.foldl (fun acc b => max acc (getEndLineE b)) p.lineno) body
  | .functionDef _ _ _ body returns p =>
    match p.endLineno with
    | some e => e
    | none =>
      let m := maxOverStmts p.lineno body
      match returns with
      | some r => max m (getEndLineE r)
      | none => m
  | .asyncFunctionDef _ _ _ body returns p =>
    match p.endLineno with
    | some e => e
    | none =>
      let m := maxOverStmts p.lineno body
      match returns with
      | some r => max m (getEndLineE r)
      | none => m
  | .assign targets value p =>
    match p.endLineno with
    | some e => e
    | none => max (targets.foldl (fun acc t => max acc (getEndLineE t)) p.lineno) (getEndLineE value)
  | .exprStmt e p =>
    match p.endLineno with
    | some x => x
    | none => max p.lineno (getEndLineE e)
  | .other children p =>
    match p.endLineno with
    | some e => e
    | none => maxOverStmts p.lineno children

/-- The `for child in ast.iter_child_nodes(node)` loop of `_get_end_line`
over a statement list: running maximum of resolved child end lines. -/
def maxOverStmts (acc : Nat) : List PyStmt → Nat
  | [] => acc
  | s :: rest => maxOverStmts (max acc (get_end_line s)) rest
end

/-- An entry of `visitor.imports` (dict built at lines 182-187 / 195-200);
`aliasName` is the `'alias'` key (from `name.asname`). -/
structure ImportInfo where
  name : String
  aliasName : Option String
  line : Nat
deriving Repr, DecidableEq

/-- An entry of `visitor.variables` (dict built at lines 248-252). -/
structure VarInfo where
  name : String
  line : Nat
  value : String
deriving Repr, DecidableEq

/-- An entry of a function's `params` list (dict built in
`_extract_parameters`): the `'type'` and `'default'` keys are only present
when set, hence `Option`. -/
structure ParamInfo where
  name : String
  type : Option String
  default : Option String
deriving Repr, DecidableEq

/-- A function record (dict built in `_process_function`): `'docstring'` and
`'returns'` keys are only present when set. -/
structure FuncInfo where
  name : String
  lineRange : Nat × Nat
  content : String
  docstring : Option String
  params : List ParamInfo
  returns : Option String
deriving Repr, DecidableEq

/-- A class record (dict built in `visit_ClassDef`): `'docstring'` is present
only when a docstring exists and `'bases'` only when `node.bases` is
non-empty. -/
structure ClassInfo where
  name : String
  lineRange : Nat × Nat
  methods : List FuncInfo
  content : String
  docstring : Option String
  bases : Option (List String)
deriving Repr, DecidableEq

/-- In-place update of the element at one index, used to model the Python
statement `params[default_offset + i]['default'] = ...`. -/
def listModify {α : Type} : List α → Nat → (α → α) → List α
  | [], _, _ => []
  | x :: xs, 0, f => f x :: xs
  | x :: xs, n + 1, f => x :: listModify xs n f

/-- `PythonASTVisitor._extract_parameters` (lines 279-297): one `ParamInfo`
per `node.args.args` entry (with `'type'` from the annotation when present),
then the `for i, default in enumerate(defaults)` loop writes each default's
source text into `params[default_offset + i]` where
`default_offset = len(args) - len(defaults)`.  (Real parse trees always
satisfy `len(defaults) ≤ len(args)`; Python's negative-index wrap-around for
the impossible opposite case is not modelled — `Nat` subtraction clamps.) -/
def extract_parameters (sourceLines : List String) (args : List Arg)
    (defaults : List PyExpr) : List ParamInfo :=
  let params : List ParamInfo := args.map (fun a =>
    { name := a.arg
      type := a.annot.map (fun ann => get_node_source sourceLines ann.pos)
      default := none })
  let defaultOffset := args.length - defaults.length
  defaults.enum.foldl (fun ps (i, d) =>
    listModify ps (defaultOffset + i)
      (fun param => { param with default := some (get_node_source sourceLines d.pos) })) params

/-- `PythonASTVisitor._process_function` (lines 255-277), applied to a
`FunctionDef` node with the given fields. -/
def process_function (sourceLines : List String) (name : String) (args : List Arg)
    (defaults : List PyExpr) (body : List PyStmt) (returns : Option PyExpr)
    (pos : Pos) : FuncInfo :=
  { name := name
    lineRange := (pos.lineno, get_end_line (.functionDef name args defaults body returns pos))
    content := get_node_source sourceLines pos
    docstring := getDocstring body
    params := extract_parameters sourceLines args defaults
    returns := returns.map (fun r => get_node_source sourceLines r.pos) }

/-- `PythonASTVisitor._get_name` (lines 336-347) restricted to the modelled
expression kinds: a plain `Name` yields its identifier, anything else falls
back to the node's source text.  (`Attribute`/`Call` bases are not modelled —
no claim depends on dotted base-name resolution.) -/
def get_name (sourceLines : List String) : PyExpr → String
  | .name id _ => id
  | e => get_node_source sourceLines e.pos

/-- The class dict built by `visit_ClassDef` (lines 203-229): the `methods`
list collects `_process_function(item)` for each direct body item that is a
plain `FunctionDef` (`isinstance(item, ast.FunctionDef)` — async functions
and nested classes are excluded). -/
def mkClassInfo (sourceLines : List String) (name : String) (bases : List PyExpr)
    (body : List PyStmt) (pos : Pos) : ClassInfo :=
  { name := name
    lineRange := (pos.lineno, get_end_line (.classDef name bases body pos))
    methods := body.filterMap (fun item =>
      match item with
      | .functionDef n a d b r p => some (process_function sourceLines n a d b r p)
      | _ => none)
    content := get_node_source sourceLines pos
    docstring := getDocstring body
    bases := if bases.isEmpty then none else some (bases.map (get_name sourceLines)) }

/-- The record produced by `visit_Assign` (lines 242-253) for one assignment
target, when that target is a plain `Name`. -/
def mkVarInfo (sourceLines : List String) (pos : Pos) (value : PyExpr)
    (target : PyExpr) : Option VarInfo :=
  match target with
  | .name id _ => some { name := id, line := pos.lineno, value := get_node_source sourceLines value.pos }
  | _ => none

/-- The mutable state of `PythonASTVisitor` (lines 147-159); `vars` is the
source's `self.variables` list (`variables` is a Lean command name). -/
structure VState where
  imports : List ImportInfo
  classes : List ClassInfo
  functions : List FuncInfo
  vars : List VarInfo
deriving Repr, DecidableEq

/-- Empty visitor state (fresh `PythonASTVisitor`). -/
def vempty : VState := { imports := [], classes := [], functions := [], vars := [] }

mutual
/-- One `NodeVisitor.visit(stmt)` dispatch.  `visit_Import`, `visit_ImportFrom`,
`visit_ClassDef`, `visit_FunctionDef` and `visit_Assign` match the source
(lines 178-253); every other statement kind — including `AsyncFunctionDef`,
which has no `visit_` method — falls through to `generic_visit`, which
recursively visits child statements.  Expression children are also visited by
`generic_visit` in the source but no `visit_` method matches any expression
kind, so that descent is a no-op and is omitted. -/
def visitStmt (sourceLines : List String) (st : VState) : PyStmt → VState
  | .importStmt names pos =>
    { st with imports := st.imports ++ names.map (fun na =>
        { name := na.1, aliasName := na.2, line := pos.lineno }) }
  | .importFrom module names pos =>
    { st with imports := st.imports ++ names.map (fun na =>
        { name := match module with
                  | some m => if m.isEmpty then na.1 else m ++ "." ++ na.1
                  | none => na.1
          aliasName := na.2
          line := pos.lineno }) }
  | .classDef name bases body pos =>
    let st' := { st with classes := st.classes ++ [mkClassInfo sourceLines name bases body pos] }
    visitStmts sourceLines st' body
  | .functionDef name args defaults body returns pos =>
    let st' := { st with functions :=
      st.functions ++ [process_function sourceLines name args defaults body returns pos] }
    visitStmts sourceLines st' body
  | .asyncFunctionDef _ _ _ body _ _ =>
    visitStmts sourceLines st body
  | .assign targets value pos =>
    { st with vars := st.vars ++ targets.filterMap (mkVarInfo sourceLines pos value) }
  | .exprStmt _ _ => st
  | .other children _ =>
    visitStmts sourceLines st children

/-- `generic_visit` over a statement list (document order). -/
def visitStmts (sourceLines : List String) (st : VState) : List PyStmt → VState
  | [] => st
  | s :: rest => visitStmts sourceLines (visitStmt sourceLines st s) rest
end

/-- `visitor.visit(tree)` on an `ast.Module` (dispatches to `generic_visit`
over the module body) starting from a fresh visitor. -/
def runVisitor (sourceLines : List String) (m : PyModule) : VState :=
  visitStmts sourceLines vempty m.body

/-- The `(name, line_range)` pairs of all methods of all classes — the
`method_signatures` set of `filter_methods_from_functions` (lines 166-170),
modelled as a list with membership via `contains`. -/
def methodSigs (classes : List ClassInfo) : List (String × (Nat × Nat)) :=
  classes.flatMap (fun c => c.methods.map (fun m => (m.name, m.lineRange)))

/-- `PythonASTVisitor.filter_methods_from_functions` (lines 161-176). -/
def filter_methods_from_functions (st : VState) : VState :=
  { st with functions := st.functions.filter (fun f =>
      !((methodSigs st.classes).contains (f.name, f.lineRange))) }

/-- Analysis of one file: `visitor.visit(tree)` followed by
`visitor.filter_methods_from_functions()` as in `parse_python_file`
(lines 36-41). -/
def analyzeFile (sourceLines : List String) (m : PyModule) : VState :=
  filter_methods_from_functions (runVisitor sourceLines m)

/-- The dict returned by `parse_python_file`: on success the keys
`imports`/`classes`/`functions`/`variables` are present (lines 43-49), on any
exception only `file_path` and `error` are (lines 50-55).  Key presence is
modelled with `Option`. -/
structure FileRecord where
  filePath : String
  imports : Option (List ImportInfo)
  classes : Option (List ClassInfo)
  functions : Option (List FuncInfo)
  vars : Option (List VarInfo)
  error : Option String
deriving Repr, DecidableEq

/-- `CodeParserService.parse_python_file` (lines 22-55).  Reading the file and
`ast.parse(content)` are external effects; their combined outcome enters as an
`Except`: `.ok` carries the source split into lines together with the parsed
module, `.error` carries the exception message (e.g. a `SyntaxError`), which
the `except` block turns into the two-key error dict. -/
def parse_python_file (filePath : String)
    (parsed : Except String (List String × PyModule)) : FileRecord :=
  match parsed with
  | .ok (sourceLines, m) =>
    let st := analyzeFile sourceLines m
    { filePath := filePath
      imports := some st.imports
      classes := some st.classes
      functions := some st.functions
      vars := some st.vars
      error := none }
  | .error msg =>
    { filePath := filePath
      imports := none
      classes := none
      functions := none
      vars := none
      error := some msg }

/-- `CodeParserService.analyze_repository` (lines 57-79): the `os.walk`
enumeration of `.py` files is the external collaborator; given the resulting
list of files (path plus read/parse outcome), each file is parsed and its
record appended to `result['files']`. -/
def analyze_repository (files : List (String × Except String (List String × PyModule))) :
    List FileRecord :=
  files.map (fun f => parse_python_file f.1 f.2)

/-- A chunk dict built by `extract_chunks` (lines 91-139): `class_name` is
present only on method chunks, `params`/`returns` only on method and function
chunks. -/
structure Chunk where
  id : String
  type : String
  name : String
  className : Option String
  filePath : String
  content : String
  docstring : String
  lineRange : Nat × Nat
  params : Option (List ParamInfo)
  returns : Option String
deriving Repr, DecidableEq

/-- The class chunk (lines 97-106). -/
def mkClassChunk (filePath : String) (c : ClassInfo) : Chunk :=
  { id := filePath ++ ":class:" ++ c.name
    type := "class"
    name := c.name
    className := none
    filePath := filePath
    content := c.content
    docstring := c.docstring.getD ""
    lineRange := c.lineRange
    params := none
    returns := none }

/-- The method chunk (lines 110-122). -/
def mkMethodChunk (filePath : String) (className : String) (m : FuncInfo) : Chunk :=
  { id := filePath ++ ":method:" ++ className ++ "." ++ m.name
    type := "method"
    name := m.name
    className := some className
    filePath := filePath
    content := m.content
    docstring := m.docstring.getD ""
    lineRange := m.lineRange
    params := some m.params
    returns := m.returns }

/-- The function chunk (lines 126-137). -/
def mkFuncChunk (filePath : String) (f : FuncInfo) : Chunk :=
  { id := filePath ++ ":function:" ++ f.name
    type := "function"
    name := f.name
    className := none
    filePath := filePath
    content := f.content
    docstring := f.docstring.getD ""
    lineRange := f.lineRange
    params := some f.params
    returns := f.returns }

/-- `CodeParserService.extract_chunks` (lines 81-139): for each class (in
list order) one class chunk immediately followed by its method chunks, then
one function chunk per entry of `functions`.  The `file_structure.get(key,
[])` accesses are `Option.getD`; the two accumulation loops are rendered as
`flatMap`/`map` appends, preserving the emission order exactly. -/
def extract_chunks (fileStructure : FileRecord) : List Chunk :=
  (fileStructure.classes.getD []).flatMap (fun classInfo =>
    mkClassChunk fileStructure.filePath classInfo ::
      classInfo.methods.map (mkMethodChunk fileStructure.filePath classInfo.name)) ++
  (fileStructure.functions.getD []).map (mkFuncChunk fileStructure.filePath)

/-- A generic `ast.AST` node as `_get_end_line` sees it: an optional `lineno`
(some node kinds, e.g. `ast.arguments`, have none — the `hasattr(child,
'lineno')` test), an optional explicit `end_lineno`, and the
`ast.iter_child_nodes` children. -/
inductive GNode where
  | mk (lineno : Option Nat) (endLineno : Option Nat) (children : List GNode)

/-- The `lineno` attribute, when present. -/
def GNode.lineno : GNode → Option Nat
  | .mk l _ _ => l

/-- The `end_lineno` attribute, when present. -/
def GNode.endLineno : GNode → Option Nat
  | .mk _ el _ => el

/-- The `iter_child_nodes` children. -/
def GNode.children : GNode → List GNode
  | .mk _ _ ch => ch

mutual
/-- `PythonASTVisitor._get_end_line` (lines 320-334) over generic nodes:
explicit `end_lineno` when present, else the running maximum, over the
line-numbered children, of their recursively resolved end lines, starting
from the node's own `lineno` (`getD 0` stands for the `AttributeError` a
lineno-less node would raise — the function is only reached with
line-numbered nodes, and all theorems assume `lineno` present). -/
def GNode.getEndLine : GNode → Nat
  | .mk l el ch =>
    match el with
    | some e => e
    | none => GNode.maxChildEnd (l.getD 0) ch

/-- The `for child in ast.iter_child_nodes(node)` loop of `_get_end_line`:
children failing `hasattr(child, 'lineno')` are skipped. -/
def GNode.maxChildEnd (acc : Nat) : List GNode → Nat
  | [] => acc
  | c :: rest =>
    GNode.maxChildEnd (if c.lineno.isSome then max acc c.getEndLine else acc) rest
end

mutual
/-- Whether some direct or transitive child of the node has a resolved end
line strictly above `bound` (used to exhibit a violation of the claimed
descendant bound of end-line resolution). -/
def GNode.anyDescExceeds (bound : Nat) : GNode → Bool
  | .mk _ _ ch => GNode.anyExceeds bound ch

/-- `anyDescExceeds` over a child list. -/
def GNode.anyExceeds (bound : Nat) : List GNode → Bool
  | [] => false
  | c :: rest =>
    decide (bound < c.getEndLine) || GNode.anyDescExceeds bound c || GNode.anyExceeds bound rest
end

mutual
/-- Specification-side collector: the `VarInfo` records of every `Assign`
statement anywhere in a statement list, in the document order the visitor's
`generic_visit` descent produces them. -/
def collectVariables (sourceLines : List String) : List PyStmt → List VarInfo
  | [] => []
  | s :: rest => collectVariables1 sourceLines s ++ collectVariables sourceLines rest

/-- `collectVariables` contribution of a single statement: each plain-`Name`
target of an `Assign` yields one record; the traversal recurses into class,
function, async-function and other compound-statement bodies. -/
def collectVariables1 (sourceLines : List String) : PyStmt → List VarInfo
  | .assign targets value pos => targets.filterMap (mkVarInfo sourceLines pos value)
  | .classDef _ _ body _ => collectVariables sourceLines body
  | .functionDef _ _ _ body _ _ => collectVariables sourceLines body
  | .asyncFunctionDef _ _ _ body _ _ => collectVariables sourceLines body
  | .other children _ => collectVariables sourceLines children
  | _ => []
end

mutual
/-- Specification-side collector: the function records the traversal appends
to `self.functions`, in document order (a `FunctionDef` contributes its own
record and then the records of plain defs nested in its body). -/
def collectFunctions (sourceLines : List String) : List PyStmt → List FuncInfo
  | [] => []
  | s :: rest => collectFunctions1 sourceLines s ++ collectFunctions sourceLines rest

/-- `collectFunctions` contribution of a single statement. -/
def collectFunctions1 (sourceLines : List String) : PyStmt → List FuncInfo
  | .functionDef n a d b r p =>
    process_function sourceLines n a d b r p :: collectFunctions sourceLines b
  | .asyncFunctionDef _ _ _ b _ _ => collectFunctions sourceLines b
  | .classDef _ _ b _ => collectFunctions sourceLines b
  | .other ch _ => collectFunctions sourceLines ch
  | _ => []
end

mutual
/-- Specification-side collector: the class records the traversal appends to
`self.classes`, in document order (outer classes before classes nested in
their bodies, since `visit_ClassDef` appends before `generic_visit`). -/
def collectClasses (sourceLines : List String) : List PyStmt → List ClassInfo
  | [] => []
  | s :: rest => collectClasses1 sourceLines s ++ collectClasses sourceLines rest

/-- `collectClasses` contribution of a single statement. -/
def collectClasses1 (sourceLines : List String) : PyStmt → List ClassInfo
  | .classDef n bs b p => mkClassInfo sourceLines n bs b p :: collectClasses sourceLines b
  | .functionDef _ _ _ b _ _ => collectClasses sourceLines b
  | .asyncFunctionDef _ _ _ b _ _ => collectClasses sourceLines b
  | .other ch _ => collectClasses sourceLines ch
  | _ => []
end

mutual
/-- Specification-side collector: the `(name, line_range)` signature of every
plain (non-async) `FunctionDef` node anywhere in a statement list.  Async
function definitions contribute no signature of their own — only the plain
defs nested inside them do. -/
def plainDefSigs : List PyStmt → List (String × (Nat × Nat))
  | [] => []
  | s :: rest => plainDefSigs1 s ++ plainDefSigs rest

/-- `plainDefSigs` contribution of a single statement. -/
def plainDefSigs1 : PyStmt → List (String × (Nat × Nat))
  | .functionDef n a d b r p =>
    (n, (p.lineno, get_end_line (.functionDef n a d b r p))) :: plainDefSigs b
  | .asyncFunctionDef _ _ _ b _ _ => plainDefSigs b
  | .classDef _ _ b _ => plainDefSigs b
  | .other ch _ => plainDefSigs ch
  | _ => []
end

/-! ### Concrete fixtures used by witnesses and counterexamples -/

/-- Source lines of the C1 fixture: a class with a method `f` and a
same-named free function `f` with a different span. -/
def c1Lines : List String :=
  ["class A:", "    def f(self):", "        pass", "def f():", "    pass"]

/-- Parse tree of `c1Lines`. -/
def c1Mod : PyModule :=
  ⟨[.classDef "A" []
      [.functionDef "f" [⟨"self", none⟩] [] [.other [] ⟨3, 8, some 3, some 12⟩]
        none ⟨2, 4, some 3, some 12⟩]
      ⟨1, 0, some 3, some 12⟩,
    .functionDef "f" [] [] [.other [] ⟨5, 4, some 5, some 8⟩] none ⟨4, 0, some 5, some 8⟩]⟩

/-- The free function `f` of the C1 fixture, as the analyzer records it. -/
def c1Fn : FuncInfo :=
  { name := "f", lineRange := (4, 5), content := "def f():\n    pass"
    docstring := none, params := [], returns := none }

/-- Source lines of the C2 witness fixture. -/
def c2Lines : List String := ["ab", "cd", "ef"]

/-- A multi-line span inside `c2Lines`: line 1 column 1 to line 3 column 1. -/
def c2Pos : Pos := ⟨1, 1, some 3, some 1⟩

/-- Source lines of the C3 counterexample fixture: the same function name
defined twice at top level. -/
def c3Lines : List String := ["def f():", "    pass", "def f():", "    pass"]

/-- Parse tree of `c3Lines`. -/
def c3Mod : PyModule :=
  ⟨[.functionDef "f" [] [] [.other [] ⟨2, 4, some 2, some 8⟩] none ⟨1, 0, some 2, some 8⟩,
    .functionDef "f" [] [] [.other [] ⟨4, 4, some 4, some 8⟩] none ⟨3, 0, some 4, some 8⟩]⟩

/-- A file record with distinct, dot-free declaration names, used to witness
the amended C3 uniqueness statement. -/
def c3Rec : FileRecord :=
  { filePath := "m.py"
    imports := some []
    classes := some [⟨"A", (1, 5),
      [⟨"f", (2, 3), "", none, [], none⟩, ⟨"g", (4, 5), "", none, [], none⟩],
      "", none, none⟩]
    functions := some [⟨"h", (7, 8), "", none, [], none⟩]
    vars := some []
    error := none }

/-- Source lines of the C4 witness fixture's valid file. -/
def c4Lines : List String := ["def g():", "    return 1"]

/-- Parse tree of `c4Lines`. -/
def c4Mod : PyModule :=
  ⟨[.functionDef "g" [] [] [.other [] ⟨2, 4, some 2, some 12⟩] none ⟨1, 0, some 2, some 12⟩]⟩

/-- A two-file batch: one file whose parse fails, one that parses. -/
def c4Files : List (String × Except String (List String × PyModule)) :=
  [("bad.py", Except.error "invalid syntax (<unknown>, line 1)"),
   ("good.py", Except.ok (c4Lines, c4Mod))]

/-- Source lines of the C5 witness fixture: `def f(a, b, c=1, d=2):`. -/
def c5Lines : List String := ["def f(a, b, c=1, d=2):", "    pass"]

/-- The four formal parameters of the C5 fixture. -/
def c5Args : List Arg := [⟨"a", none⟩, ⟨"b", none⟩, ⟨"c", none⟩, ⟨"d", none⟩]

/-- The two default-value expressions of the C5 fixture (`1` and `2`). -/
def c5Defaults : List PyExpr :=
  [.other ⟨1, 14, some 1, some 15⟩, .other ⟨1, 19, some 1, some 20⟩]

/-- Source lines of the C7 counterexample fixture: the only assignment sits
inside a function body, not at top level. -/
def c7Lines : List String := ["def f():", "    x = 1"]

/-- Parse tree of `c7Lines`. -/
def c7Mod : PyModule :=
  ⟨[.functionDef "f" [] []
      [.assign [.name "x" ⟨2, 4, some 2, some 5⟩] (.other ⟨2, 8, some 2, some 9⟩)
        ⟨2, 4, some 2, some 9⟩]
      none ⟨1, 0, some 2, some 9⟩]⟩

/-- The C8 counterexample tree: the root lacks an explicit end line, its only
child carries explicit `end_lineno = 2`, and a grandchild ends at line 100. -/
def c8Node : GNode :=
  .mk (some 1) none [.mk (some 1) (some 2) [.mk (some 100) (some 100) []]]

/-- A child node used by the C8 witness. -/
def c8Child : GNode := .mk (some 3) (some 7) []

/-- Source lines of the C10 fixture: a top-level async def and a class with
an async method. -/
def c10Lines : List String :=
  ["async def f():", "    pass", "class B:", "    async def g(self):", "        pass"]

/-- Parse tree of `c10Lines`. -/
def c10Mod : PyModule :=
  ⟨[.asyncFunctionDef "f" [] [] [.other [] ⟨2, 4, some 2, some 8⟩] none ⟨1, 0, some 2, some 8⟩,
    .classDef "B" []
      [.asyncFunctionDef "g" [⟨"self", none⟩] [] [.other [] ⟨5, 8, some 5, some 12⟩]
        none ⟨4, 4, some 5, some 12⟩]
      ⟨3, 0, some 5, some 12⟩]⟩

/-- Source lines of the C10 witness fixture: one plain def. -/
def c10WLines : List String := ["def h():", "    pass"]

/-- Parse tree of `c10WLines`. -/
def c10WMod : PyModule :=
  ⟨[.functionDef "h" [] [] [.other [] ⟨2, 4, some 2, some 8⟩] none ⟨1, 0, some 2, some 8⟩]⟩

/-- The record the analyzer produces for the plain def of `c10WMod`. -/
def c10Frec : FuncInfo :=
  { name := "h", lineRange := (1, 2), content := "def h():\n    pass"
    docstring := none, params := [], returns := none }

/-! ## Theorems -/

/-- Summing `methods.length + 1` over classes splits into the class count
plus the total method count. -/
theorem sum_methods_succ (cs : List ClassInfo) :
    (cs.map (fun c => c.methods.length + 1)).sum =
      cs.length + (cs.map (fun c => c.methods.length)).sum := by
  induction cs with
  | nil => rfl
  | cons c rest ih => simp [ih]; omega

/-- Claim C9: applying `extract_chunks` to a parse-failure record (file path
and error message only, no classes/functions keys) does not fail and yields
the empty chunk list, so error-marked files contribute zero chunks. -/
theorem c9_error_record_yields_no_chunks (p msg : String) :
    extract_chunks (parse_python_file p (Except.error msg)) = [] := rfl

/-- `c9_error_record_yields_no_chunks` at a concrete input. -/
theorem c9_error_record_yields_no_chunks_w :
    extract_chunks (parse_python_file "broken.py" (Except.error "invalid syntax")) = [] :=
  c9_error_record_yields_no_chunks "broken.py" "invalid syntax"

/-- Claim C6: `extract_chunks` emits, for each class in order, one class
chunk immediately followed by one method chunk per method (carrying the
owning class name), and only then one function chunk per remaining function;
the chunk count is `#classes + #methods + #functions`. -/
theorem c6_chunk_emission_order (fr : FileRecord) :
    (extract_chunks fr).map (fun ch => (ch.type, ch.name, ch.className)) =
      (fr.classes.getD []).flatMap (fun c =>
        ("class", c.name, (none : Option String)) ::
          c.methods.map (fun m => ("method", m.name, some c.name))) ++
      (fr.functions.getD []).map (fun f => ("function", f.name, (none : Option String))) ∧
    (extract_chunks fr).length =
      (fr.classes.getD []).length +
        ((fr.classes.getD []).map (fun c => c.methods.length)).sum +
        (fr.functions.getD []).length := by
  constructor
  · simp [extract_chunks, List.map_append, List.map_flatMap, mkClassChunk, mkMethodChunk,
      mkFuncChunk, Function.comp_def]
  · simp only [extract_chunks, List.length_append, List.length_map, List.length_flatMap,
      List.length_cons, Function.comp_def]
    rw [sum_methods_succ]

/-- Claim C1 (main part): after analysis — traversal plus the
`filter_methods_from_functions` post-pass — no record in `functions` shares
its `(name, line_range)` pair with any method of any class, and (kept part)
every traversal-time function record whose signature matches no method
survives the filter, so same-named functions with different spans are kept. -/
theorem c1_no_method_duplicates (sourceLines : List String) (m : PyModule) :
    ((analyzeFile sourceLines m).functions.all (fun f =>
        !((methodSigs (analyzeFile sourceLines m).classes).contains (f.name, f.lineRange)))) = true ∧
    ∀ f : FuncInfo, f ∈ (runVisitor sourceLines m).functions →
      ((methodSigs (runVisitor sourceLines m).classes).contains (f.name, f.lineRange)) = false →
      f ∈ (analyzeFile sourceLines m).functions := by
  constructor
  · rw [List.all_eq_true]
    intro f hf
    have hc : (analyzeFile sourceLines m).classes = (runVisitor sourceLines m).classes := rfl
    rw [hc]
    simp only [analyzeFile, filter_methods_from_functions, List.mem_filter] at hf
    simpa using hf.2
  · intro f hmem hcon
    simp only [analyzeFile, filter_methods_from_functions, List.mem_filter]
    exact ⟨hmem, by simpa using hcon⟩

/-- `c1_no_method_duplicates` at the concrete fixture: the free function `f`
(lines 4-5) shares its name with method `f` of class `A` (lines 2-3) but has
a different span, so it survives the filter. -/
theorem c1_no_method_duplicates_w : c1Fn ∈ (analyzeFile c1Lines c1Mod).functions :=
  (c1_no_method_duplicates c1Lines c1Mod).2 c1Fn (by decide) (by decide)

/-- Claim C4: a parse failure yields a record carrying the file path and the
message with no partial structure (all structure keys absent), a successful
parse yields the full structure with no error key, a repository run yields
one record per input file regardless of failures, and the number of
error-free records equals the number of successfully parsed files. -/
theorem c4_parse_failure_isolation
    (files : List (String × Except String (List String × PyModule))) :
    (analyze_repository files).length = files.length ∧
    (∀ p msg, (p, Except.error msg) ∈ files →
      ({ filePath := p, imports := none, classes := none, functions := none,
         vars := none, error := some msg } : FileRecord) ∈ analyze_repository files) ∧
    (∀ p sourceLines m, (p, Except.ok (sourceLines, m)) ∈ files →
      ({ filePath := p
         imports := some (analyzeFile sourceLines m).imports
         classes := some (analyzeFile sourceLines m).classes
         functions := some (analyzeFile sourceLines m).functions
         vars := some (analyzeFile sourceLines m).vars
         error := none } : FileRecord) ∈ analyze_repository files) ∧
    (analyze_repository files).countP (fun r => r.error.isNone) =
      files.countP (fun f => f.2.toOption.isSome) := by
  refine ⟨by simp [analyze_repository], ?_, ?_, ?_⟩
  · intro p msg h
    exact List.mem_map_of_mem (fun f => parse_python_file f.1 f.2) h
  · intro p sourceLines m h
    exact List.mem_map_of_mem (fun f => parse_python_file f.1 f.2) h
  · rw [analyze_repository, List.countP_map]
    apply List.countP_congr
    intro a _
    cases a with
    | mk p o => cases o <;> rfl

/-- `c4_parse_failure_isolation` at the concrete two-file batch: one invalid
file, one valid file. -/
theorem c4_parse_failure_isolation_w :
    (analyze_repository c4Files).length = c4Files.length ∧
    ({ filePath := "bad.py", imports := none, classes := none, functions := none,
       vars := none, error := some "invalid syntax (<unknown>, line 1)" } : FileRecord) ∈
      analyze_repository c4Files ∧
    (analyze_repository c4Files).countP (fun r => r.error.isNone) =
      c4Files.countP (fun f => f.2.toOption.isSome) := by
  obtain ⟨h1, h2, _, h4⟩ := c4_parse_failure_isolation c4Files
  exact ⟨h1, h2 "bad.py" "invalid syntax (<unknown>, line 1)" (by simp [c4Files]), h4⟩

mutual
/-- The traversal accumulates exactly the document-order variable records:
list version. -/
theorem visitStmts_vars (sourceLines : List String) :
    ∀ (ss : List PyStmt) (st : VState),
      (visitStmts sourceLines st ss).vars = st.vars ++ collectVariables sourceLines ss
  | [], st => by simp [visitStmts, collectVariables]
  | s :: rest, st => by
    rw [visitStmts, collectVariables, visitStmts_vars sourceLines rest,
      visitStmt_vars sourceLines s, List.append_assoc]

/-- The traversal accumulates exactly the document-order variable records:
single-statement version. -/
theorem visitStmt_vars (sourceLines : List String) :
    ∀ (s : PyStmt) (st : VState),
      (visitStmt sourceLines st s).vars = st.vars ++ collectVariables1 sourceLines s
  | .importStmt _ _, st => by simp [visitStmt, collectVariables1]
  | .importFrom _ _ _, st => by simp [visitStmt, collectVariables1]
  | .classDef _ _ body _, st => by
    rw [visitStmt, visitStmts_vars sourceLines body, collectVariables1]
  | .functionDef _ _ _ body _ _, st => by
    rw [visitStmt, visitStmts_vars sourceLines body, collectVariables1]
  | .asyncFunctionDef _ _ _ body _ _, st => by
    rw [visitStmt, visitStmts_vars sourceLines body, collectVariables1]
  | .assign _ _ _, st => by rw [visitStmt, collectVariables1]
  | .exprStmt _ _, st => by simp [visitStmt, collectVariables1]
  | .other children _, st => by
    rw [visitStmt, visitStmts_vars sourceLines children, collectVariables1]
end

mutual
/-- The traversal accumulates exactly the document-order function records:
list version. -/
theorem visitStmts_functions (sourceLines : List String) :
    ∀ (ss : List PyStmt) (st : VState),
      (visitStmts sourceLines st ss).functions = st.functions ++ collectFunctions sourceLines ss
  | [], st => by simp [visitStmts, collectFunctions]
  | s :: rest, st => by
    rw [visitStmts, collectFunctions, visitStmts_functions sourceLines rest,
      visitStmt_functions sourceLines s, List.append_assoc]

/-- The traversal accumulates exactly the document-order function records:
single-statement version. -/
theorem visitStmt_functions (sourceLines : List String) :
    ∀ (s : PyStmt) (st : VState),
      (visitStmt sourceLines st s).functions = st.functions ++ collectFunctions1 sourceLines s
  | .importStmt _ _, st => by simp [visitStmt, collectFunctions1]
  | .importFrom _ _ _, st => by simp [visitStmt, collectFunctions1]
  | .classDef _ _ body _, st => by
    rw [visitStmt, visitStmts_functions sourceLines body, collectFunctions1]
  | .functionDef _ _ _ body _ _, st => by
    rw [visitStmt, visitStmts_functions sourceLines body, collectFunctions1,
      List.append_assoc]
    rfl
  | .asyncFunctionDef _ _ _ body _ _, st => by
    rw [visitStmt, visitStmts_functions sourceLines body, collectFunctions1]
  | .assign _ _ _, st => by simp [visitStmt, collectFunctions1]
  | .exprStmt _ _, st => by simp [visitStmt, collectFunctions1]
  | .other children _, st => by
    rw [visitStmt, visitStmts_functions sourceLines children, collectFunctions1]
end

mutual
/-- The traversal accumulates exactly the document-order class records:
list version. -/
theorem visitStmts_classes (sourceLines : List String) :
    ∀ (ss : List PyStmt) (st : VState),
      (visitStmts sourceLines st ss).classes = st.classes ++ collectClasses sourceLines ss
  | [], st => by simp [visitStmts, collectClasses]
  | s :: rest, st => by
    rw [visitStmts, collectClasses, visitStmts_classes sourceLines rest,
      visitStmt_classes sourceLines s, List.append_assoc]

/-- The traversal accumulates exactly the document-order class records:
single-statement version. -/
theorem visitStmt_classes (sourceLines : List String) :
    ∀ (s : PyStmt) (st : VState),
      (visitStmt sourceLines st s).classes = st.classes ++ collectClasses1 sourceLines s
  | .importStmt _ _, st => by simp [visitStmt, collectClasses1]
  | .importFrom _ _ _, st => by simp [visitStmt, collectClasses1]
  | .classDef _ _ body _, st => by
    rw [visitStmt, visitStmts_classes sourceLines body, collectClasses1,
      List.append_assoc]
    rfl
  | .functionDef _ _ _ body _ _, st => by
    rw [visitStmt, visitStmts_classes sourceLines body, collectClasses1]
  | .asyncFunctionDef _ _ _ body _ _, st => by
    rw [visitStmt, visitStmts_classes sourceLines body, collectClasses1]
  | .assign _ _ _, st => by simp [visitStmt, collectClasses1]
  | .exprStmt _ _, st => by simp [visitStmt, collectClasses1]
  | .other children _, st => by
    rw [visitStmt, visitStmts_classes sourceLines children, collectClasses1]
end

/-- Claim C7 counterexample: the fixture module's only assignment lies inside
a function body (not a top-level binding), yet analysis records a
`VariableRecord` for it — refuting "no VariableRecord arises from assignments
that are not top-level bindings". -/
theorem c7_nested_assign_recorded_cex :
    (analyzeFile c7Lines c7Mod).vars = [{ name := "x", line := 2, value := "1" }] := by decide

/-- Claim C7 (amended): a `VariableRecord` is produced for each assignment
with a plain-`Name` target anywhere in the file — top level or nested inside
function/class/compound-statement bodies — one record per `Name` target
carrying the target name, the assignment's line and the value expression's
text, while non-`Name` targets yield none (see `mkVarInfo` and
`collectVariables1`). -/
theorem c7_variable_records_amended (sourceLines : List String) (m : PyModule) :
    (analyzeFile sourceLines m).vars = collectVariables sourceLines m.body ∧
    ∀ targets value pos,
      collectVariables1 sourceLines (.assign targets value pos) =
        targets.filterMap (mkVarInfo sourceLines pos value) := by
  constructor
  · have h : (analyzeFile sourceLines m).vars = (runVisitor sourceLines m).vars := rfl
    rw [h, runVisitor, visitStmts_vars sourceLines m.body vempty]
    rfl
  · intro targets value pos
    rfl

/-- A plain `FunctionDef` occurring in a statement list contributes its
signature to `plainDefSigs` of that list. -/
theorem sig_mem_of_fundef_mem :
    ∀ (ss : List PyStmt) (n : String) (a : List Arg) (d : List PyExpr)
      (b : List PyStmt) (r : Option PyExpr) (p : Pos),
      (PyStmt.functionDef n a d b r p) ∈ ss →
      (n, (p.lineno, get_end_line (.functionDef n a d b r p))) ∈ plainDefSigs ss := by
  intro ss n a d b r p h
  induction ss with
  | nil => cases h
  | cons s rest ih =>
    rw [plainDefSigs]
    rcases List.mem_cons.mp h with h1 | h2
    · subst h1
      exact List.mem_append_left _ (List.mem_cons_self _ _)
    · exact List.mem_append_right _ (ih h2)

mutual
/-- Every function record the traversal collects carries the signature of
some plain `FunctionDef` node of the statement list: list version. -/
theorem collectFunctions_sig (sourceLines : List String) :
    ∀ (ss : List PyStmt) (f : FuncInfo), f ∈ collectFunctions sourceLines ss →
      (f.name, f.lineRange) ∈ plainDefSigs ss
  | [], f => by intro h; rw [collectFunctions] at h; cases h
  | s :: rest, f => by
    intro h
    rw [collectFunctions] at h
    rw [plainDefSigs]
    rcases List.mem_append.mp h with h1 | h2
    · exact List.mem_append_left _ (collectFunctions1_sig sourceLines s f h1)
    · exact List.mem_append_right _ (collectFunctions_sig sourceLines rest f h2)

/-- Every function record the traversal collects carries the signature of
some plain `FunctionDef` node: single-statement version. -/
theorem collectFunctions1_sig (sourceLines : List String) :
    ∀ (s : PyStmt) (f : FuncInfo), f ∈ collectFunctions1 sourceLines s →
      (f.name, f.lineRange) ∈ plainDefSigs1 s
  | .functionDef n a d b r p, f => by
    intro h
    rw [collectFunctions1] at h
    rw [plainDefSigs1]
    rcases List.mem_cons.mp h with h1 | h2
    · subst h1
      exact List.mem_cons_self _ _
    · exact List.mem_cons_of_mem _ (collectFunctions_sig sourceLines b f h2)
  | .asyncFunctionDef _ _ _ b _ _, f => by
    intro h
    exact collectFunctions_sig sourceLines b f h
  | .classDef _ _ b _, f => by
    intro h
    exact collectFunctions_sig sourceLines b f h
  | .other ch _, f => by
    intro h
    exact collectFunctions_sig sourceLines ch f h
  | .importStmt _ _, f => by intro h; cases h
  | .importFrom _ _ _, f => by intro h; cases h
  | .assign _ _ _, f => by intro h; cases h
  | .exprStmt _ _, f => by intro h; cases h
end

mutual
/-- Every method of every collected class carries the signature of some plain
`FunctionDef` node of the statement list: list version. -/
theorem collectClasses_method_sig (sourceLines : List String) :
    ∀ (ss : List PyStmt) (c : ClassInfo) (f : FuncInfo),
      c ∈ collectClasses sourceLines ss → f ∈ c.methods →
      (f.name, f.lineRange) ∈ plainDefSigs ss
  | [], c, f => by intro hc _; rw [collectClasses] at hc; cases hc
  | s :: rest, c, f => by
    intro hc hf
    rw [collectClasses] at hc
    rw [plainDefSigs]
    rcases List.mem_append.mp hc with h1 | h2
    · exact List.mem_append_left _ (collectClasses1_method_sig sourceLines s c f h1 hf)
    · exact List.mem_append_right _ (collectClasses_method_sig sourceLines rest c f h2 hf)

/-- Every method of every collected class carries the signature of some plain
`FunctionDef` node: single-statement version. -/
theorem collectClasses1_method_sig (sourceLines : List String) :
    ∀ (s : PyStmt) (c : ClassInfo) (f : FuncInfo),
      c ∈ collectClasses1 sourceLines s → f ∈ c.methods →
      (f.name, f.lineRange) ∈ plainDefSigs1 s
  | .classDef n bs b p, c, f => by
    intro hc hf
    rw [collectClasses1] at hc
    rw [plainDefSigs1]
    rcases List.mem_cons.mp hc with h1 | h2
    · subst h1
      rw [mkClassInfo] at hf
      simp only [List.mem_filterMap] at hf
      obtain ⟨item, hitem, hsome⟩ := hf
      match item with
      | .functionDef n' a' d' b' r' p' =>
        simp only at hsome
        have hsig := sig_mem_of_fundef_mem b n' a' d' b' r' p' hitem
        injection hsome with hpf
        rw [← hpf]
        exact hsig
    · exact collectClasses_method_sig sourceLines b c f h2 hf
  | .functionDef _ _ _ b _ _, c, f => by
    intro hc hf
    rw [collectClasses1] at hc
    rw [plainDefSigs1]
    exact List.mem_cons_of_mem _ (collectClasses_method_sig sourceLines b c f hc hf)
  | .asyncFunctionDef _ _ _ b _ _, c, f => by
    intro hc hf
    exact collectClasses_method_sig sourceLines b c f hc hf
  | .other ch _, c, f => by
    intro hc hf
    exact collectClasses_method_sig sourceLines ch c f hc hf
  | .importStmt _ _, c, f => by intro hc _; cases hc
  | .importFrom _ _ _, c, f => by intro hc _; cases hc
  | .assign _ _ _, c, f => by intro hc _; cases hc
  | .exprStmt _ _, c, f => by intro hc _; cases hc
end

/-- Claim C10: async function definitions are invisible — every function
record and every class method produced by analysis carries the `(name,
line_range)` signature of a plain (non-async) `FunctionDef` node, so an
`async def` contributes no `CallableRecord` of its own; concretely, the
fixture with a top-level `async def` and a class holding only an async
method yields an empty `functions` list and an empty method list. -/
theorem c10_async_defs_invisible :
    (∀ (sourceLines : List String) (m : PyModule) (f : FuncInfo),
      f ∈ (analyzeFile sourceLines m).functions →
      (f.name, f.lineRange) ∈ plainDefSigs m.body) ∧
    (∀ (sourceLines : List String) (m : PyModule) (c : ClassInfo) (f : FuncInfo),
      c ∈ (analyzeFile sourceLines m).classes → f ∈ c.methods →
      (f.name, f.lineRange) ∈ plainDefSigs m.body) ∧
    (analyzeFile c10Lines c10Mod).functions = [] ∧
    (analyzeFile c10Lines c10Mod).classes.map (fun c => c.methods) = [[]] := by
  refine ⟨?_, ?_, by decide, by decide⟩
  · intro sourceLines m f hf
    have h1 : f ∈ (runVisitor sourceLines m).functions :=
      List.mem_of_mem_filter hf
    have h2 : (runVisitor sourceLines m).functions = collectFunctions sourceLines m.body := by
      rw [runVisitor, visitStmts_functions sourceLines m.body vempty]; rfl
    rw [h2] at h1
    exact collectFunctions_sig sourceLines m.body f h1
  · intro sourceLines m c f hc hf
    have h2 : (analyzeFile sourceLines m).classes = collectClasses sourceLines m.body := by
      have h : (analyzeFile sourceLines m).classes = (runVisitor sourceLines m).classes := rfl
      rw [h, runVisitor, visitStmts_classes sourceLines m.body vempty]; rfl
    rw [h2] at hc
    exact collectClasses_method_sig sourceLines m.body c f hc hf

/-- `c10_async_defs_invisible` at a module with one plain def: that def's
record is present and its signature is among the plain-def signatures. -/
theorem c10_async_defs_invisible_w :
    (c10Frec.name, c10Frec.lineRange) ∈ plainDefSigs c10WMod.body :=
  c10_async_defs_invisible.1 c10WLines c10WMod c10Frec (by decide)

/-- The running maximum of `_get_end_line`'s child loop never drops below its
starting accumulator. -/
theorem maxChildEnd_le (ch : List GNode) : ∀ acc : Nat, acc ≤ GNode.maxChildEnd acc ch := by
  induction ch with
  | nil => intro acc; exact Nat.le_refl acc
  | cons c rest ih =>
    intro acc
    rw [GNode.maxChildEnd]
    refine Nat.le_trans ?_ (ih _)
    by_cases h : c.lineno.isSome <;> simp [h, Nat.le_max_left]

/-- Every line-numbered child's resolved end line is bounded by the loop's
result. -/
theorem maxChildEnd_child_le (ch : List GNode) :
    ∀ (acc : Nat) (c : GNode), c ∈ ch → c.lineno.isSome →
      c.getEndLine ≤ GNode.maxChildEnd acc ch := by
  induction ch with
  | nil => intro acc c hc; cases hc
  | cons d rest ih =>
    intro acc c hc hline
    rw [GNode.maxChildEnd]
    rcases List.mem_cons.mp hc with h1 | h2
    · subst h1
      refine Nat.le_trans ?_ (maxChildEnd_le rest _)
      simp [hline, Nat.le_max_right]
    · exact ih _ c h2 hline

/-- Claim C8 counterexample: in the fixture tree the root has no explicit end
line, yet some transitive descendant's computed end line (100) strictly
exceeds the root's computed end line (2), because the intermediate child
carries an explicit `end_lineno = 2` that caps the recursion — refuting "the
computed end line is ≥ the computed end line of every descendant". -/
theorem c8_end_line_descendant_cex :
    c8Node.endLineno = none ∧ GNode.anyDescExceeds c8Node.getEndLine c8Node = true := by
  constructor
  · rfl
  · decide

/-- Claim C8 (amended): end-line resolution returns the explicit end line
when the tree supplies one; for a node without one it defaults to the node's
own start line when childless, and in general is ≥ the start line and ≥ the
computed end line of every *direct* line-numbered child.  (The bound does not
extend to transitive descendants: an intermediate child with an explicit —
possibly inconsistent — end line, or without line information, breaks it, as
the counterexample shows.) -/
theorem c8_end_line_resolution_amended :
    (∀ (l : Option Nat) (e : Nat) (ch : List GNode), (GNode.mk l (some e) ch).getEndLine = e) ∧
    (∀ l : Nat, (GNode.mk (some l) none []).getEndLine = l) ∧
    (∀ (l : Nat) (ch : List GNode), l ≤ (GNode.mk (some l) none ch).getEndLine) ∧
    (∀ (l : Nat) (ch : List GNode) (c : GNode), c ∈ ch → c.lineno.isSome →
      c.getEndLine ≤ (GNode.mk (some l) none ch).getEndLine) := by
  refine ⟨fun _ _ _ => rfl, fun _ => rfl, ?_, ?_⟩
  · intro l ch
    rw [GNode.getEndLine]
    exact maxChildEnd_le ch l
  · intro l ch c hc hline
    rw [GNode.getEndLine]
    exact maxChildEnd_child_le ch l c hc hline

/-- `c8_end_line_resolution_amended` at a concrete node: the child's explicit
end line 7 bounds the parent's computed end line. -/
theorem c8_end_line_resolution_amended_w :
    c8Child.getEndLine ≤ (GNode.mk (some 1) none [c8Child]).getEndLine :=
  c8_end_line_resolution_amended.2.2.2 1 [c8Child] c8Child (List.mem_cons_self _ _) rfl

/-- `listModify` preserves length. -/
theorem listModify_length {α : Type} :
    ∀ (ps : List α) (i : Nat) (f : α → α), (listModify ps i f).length = ps.length
  | [], _, _ => rfl
  | _ :: xs, 0, f => rfl
  | x :: xs, n + 1, f => by rw [listModify, List.length_cons, List.length_cons,
      listModify_length xs n f]

/-- `listModify` at an in-bounds index splits into prefix, modified element,
and suffix. -/
theorem listModify_split {α : Type} :
    ∀ (ps : List α) (i : Nat) (f : α → α) (h : i < ps.length),
      listModify ps i f = ps.take i ++ f ps[i] :: ps.drop (i + 1)
  | x :: xs, 0, f, _ => rfl
  | x :: xs, n + 1, f, h => by
    rw [listModify, listModify_split xs n f (by simpa using h)]
    rfl

/-- The `enumerate(defaults)` write-back loop of `_extract_parameters`
rewrites exactly the parameter slots from position `off + n` on, pairing them
with the defaults in order. -/
theorem defaults_foldl (sourceLines : List String) :
    ∀ (ds : List PyExpr) (ps : List ParamInfo) (off n : Nat),
      ps.length = off + n + ds.length →
      (List.enumFrom n ds).foldl (fun acc x =>
        listModify acc (off + x.1)
          (fun param => { param with
            default := some (get_node_source sourceLines x.2.pos) })) ps =
      ps.take (off + n) ++
        List.zipWith (fun param d => { param with
          default := some (get_node_source sourceLines d.pos) }) (ps.drop (off + n)) ds
  | [], ps, off, n => by
    intro h
    simp only [List.length_nil] at h
    simp only [List.enumFrom, List.foldl_nil, List.zipWith_nil_right, List.append_nil]
    rw [List.take_of_length_le (by omega)]
  | d :: ds', ps, off, n => by
    intro h
    simp only [List.length_cons] at h
    have hlt : off + n < ps.length := by omega
    rw [show List.enumFrom n (d :: ds') = (n, d) :: List.enumFrom (n + 1) ds' from rfl,
      List.foldl_cons]
    rw [listModify_split ps (off + n) _ hlt]
    have hlen : (ps.take (off + n) ++
        ({ ps[off + n] with
          default := some (get_node_source sourceLines d.pos) } : ParamInfo) ::
          ps.drop (off + n + 1)).length = off + (n + 1) + ds'.length := by
      simp only [List.length_append, List.length_cons, List.length_take, List.length_drop]
      omega
    rw [defaults_foldl sourceLines ds' _ off (n + 1) hlen]
    have htk : (ps.take (off + n)).length = off + n := by
      rw [List.length_take]; omega
    rw [show off + (n + 1) = (ps.take (off + n)).length + 1 by omega,
      List.take_append, List.drop_append,
      List.drop_eq_getElem_cons hlt, List.zipWith_cons_cons]
    simp

/-- Mapping `default` over the zip of parameter slots with defaults yields
the defaults' source texts. -/
theorem zip_map_default (sourceLines : List String) :
    ∀ (ds : List PyExpr) (ps : List ParamInfo), ds.length ≤ ps.length →
      (List.zipWith (fun param d => { param with
        default := some (get_node_source sourceLines d.pos) }) ps ds).map
          (fun param => param.default) =
        ds.map (fun d => some (get_node_source sourceLines d.pos))
  | [], ps, _ => by simp
  | d :: ds', [], h => by simp at h
  | d :: ds', p :: ps', h => by
    rw [List.zipWith_cons_cons, List.map_cons, List.map_cons,
      zip_map_default sourceLines ds' ps' (by simpa using h)]

/-- Mapping `name` over the zip of parameter slots with defaults leaves the
slot names unchanged. -/
theorem zip_map_name (sourceLines : List String) :
    ∀ (ds : List PyExpr) (ps : List ParamInfo), ds.length ≤ ps.length →
      (List.zipWith (fun param d => { param with
        default := some (get_node_source sourceLines d.pos) }) ps ds).map
          (fun param => param.name) =
        (ps.take ds.length).map (fun param => param.name)
  | [], ps, _ => by simp
  | d :: ds', [], h => by simp at h
  | d :: ds', p :: ps', h => by
    rw [List.zipWith_cons_cons, List.map_cons,
      show (d :: ds').length = ds'.length + 1 from rfl, List.take_succ_cons, List.map_cons,
      zip_map_name sourceLines ds' ps' (by simpa using h)]

/-- Claim C5: the `k` supplied defaults are back-aligned onto exactly the
last `k` parameters in declaration order — the first `n - k` parameters carry
no default and the last `k` carry the defaults' source texts in order — while
the parameter names keep declaration order. -/
theorem c5_default_alignment (sourceLines : List String) (args : List Arg)
    (defaults : List PyExpr) (h : defaults.length ≤ args.length) :
    (extract_parameters sourceLines args defaults).map (fun param => param.default) =
      List.replicate (args.length - defaults.length) none ++
        defaults.map (fun d => some (get_node_source sourceLines d.pos)) ∧
    (extract_parameters sourceLines args defaults).map (fun param => param.name) =
      args.map (fun a => a.arg) := by
  set ps : List ParamInfo := args.map (fun a =>
    { name := a.arg
      type := a.annot.map (fun ann => get_node_source sourceLines ann.pos)
      default := none }) with hps
  have hlen : ps.length = args.length := by simp [hps]
  set off := args.length - defaults.length with hoff
  have hsplit : extract_parameters sourceLines args defaults =
      ps.take off ++
        List.zipWith (fun param d => { param with
          default := some (get_node_source sourceLines d.pos) }) (ps.drop off) defaults := by
    rw [extract_parameters]
    rw [show List.enum defaults = List.enumFrom 0 defaults from rfl]
    have := defaults_foldl sourceLines defaults ps off 0 (by omega)
    simpa using this
  have hdlen : defaults.length ≤ (ps.drop off).length := by
    rw [List.length_drop]; omega
  have hdefault : ps.map (fun param => param.default) =
      List.replicate args.length (none : Option String) := by
    rw [hps, List.map_map]
    exact List.map_const' args none
  constructor
  · rw [hsplit, List.map_append, zip_map_default sourceLines defaults _ hdlen]
    congr 1
    rw [List.map_take, hdefault, List.take_replicate]
    congr 1
    omega
  · rw [hsplit, List.map_append, zip_map_name sourceLines defaults _ hdlen]
    have hdk : ((ps.drop off).take defaults.length) = ps.drop off := by
      apply List.take_of_length_le
      rw [List.length_drop]
      omega
    rw [hdk, List.map_take, List.map_drop, List.take_append_drop]
    rw [hps, List.map_map]
    rfl

/-- `c5_default_alignment` at the fixture `def f(a, b, c=1, d=2):` — exactly
`c` and `d` carry defaults `"1"` and `"2"`. -/
theorem c5_default_alignment_w :
    (extract_parameters c5Lines c5Args c5Defaults).map (fun param => param.default) =
      [none, none, some "1", some "2"] ∧
    (extract_parameters c5Lines c5Args c5Defaults).map (fun param => param.name) =
      ["a", "b", "c", "d"] := by
  obtain ⟨h1, h2⟩ := c5_default_alignment c5Lines c5Args c5Defaults (by decide)
  exact ⟨h1.trans (by decide), h2.trans (by decide)⟩

/-- Two strings with the same character data are equal. -/
theorem string_ext (s t : String) (h : s.data = t.data) : s = t := by
  cases s
  cases t
  exact congrArg String.mk h

/-- Character data of `l ++ "\n" ++ r`. -/
theorem data_nl (l r : String) : (l ++ "\n" ++ r).data = l.data ++ '\n' :: r.data := by
  rw [String.data_append, String.data_append]
  simp

/-- `pyJoin` on a cons with non-empty tail. -/
theorem pyJoin_cons (l : String) (r : List String) (h : r ≠ []) :
    pyJoin (l :: r) = l ++ "\n" ++ pyJoin r := by
  match r with
  | [] => exact absurd rfl h
  | l' :: rest => rfl

/-- `charOffset` of the empty line list ignores the line index. -/
theorem charOffset_nil (k c : Nat) : charOffset [] k c = c := by
  cases k <;> rfl

/-- `charOffset` at line index `0` is the column. -/
theorem charOffset_zero (lines : List String) (c : Nat) : charOffset lines 0 c = c := by
  cases lines <;> rfl

/-- `charOffset` splits at an intermediate line index. -/
theorem charOffset_split :
    ∀ (s : Nat) (lines : List String) (j c : Nat), s ≤ j →
      charOffset lines j c = charOffset lines s 0 + charOffset (lines.drop s) (j - s) c
  | 0, lines, j, c => by
    intro _
    rw [charOffset_zero, List.drop_zero, Nat.sub_zero, Nat.zero_add]
  | s + 1, [], j, c => by
    intro _
    rw [charOffset_nil, charOffset_nil, List.drop_nil, charOffset_nil, Nat.zero_add]
  | s + 1, l :: rest, j, c => by
    intro hsj
    match j, hsj with
    | j' + 1, hsj =>
      rw [show charOffset (l :: rest) (j' + 1) c = l.length + 1 + charOffset rest j' c from rfl,
        show charOffset (l :: rest) (s + 1) 0 = l.length + 1 + charOffset rest s 0 from rfl,
        show (l :: rest).drop (s + 1) = rest.drop s from rfl,
        Nat.succ_sub_succ j' s,
        charOffset_split s rest j' c (Nat.le_of_succ_le_succ hsj)]
      omega

/-- Dropping `charOffset lines k c` characters from the joined source equals
dropping `c` characters from the join of the lines from `k` on. -/
theorem drop_charOffset :
    ∀ (k : Nat) (lines : List String) (c : Nat), k < lines.length →
      (pyJoin lines).data.drop (charOffset lines k c) = ((pyJoin (lines.drop k)).data).drop c
  | 0, lines, c, _ => by rw [charOffset_zero, List.drop_zero]
  | k + 1, [], c, h => by simp at h
  | k + 1, l :: rest, c, h => by
    have hk : k < rest.length := by simpa using h
    have hne : rest ≠ [] := List.ne_nil_of_length_pos (Nat.lt_of_le_of_lt (Nat.zero_le k) hk)
    rw [pyJoin_cons l rest hne, data_nl,
      show charOffset (l :: rest) (k + 1) c = l.length + 1 + charOffset rest k c from rfl,
      List.append_cons,
      show l.length + 1 + charOffset rest k c =
        (l.data ++ ['\n']).length + charOffset rest k c by simp,
      List.drop_append,
      show (l :: rest).drop (k + 1) = rest.drop k from rfl,
      drop_charOffset k rest c hk]

/-- Taking `charOffset rest k c2` characters of the joined lines equals
joining the first `k` lines with the `c2`-column cut of line `k`. -/
theorem take_charOffset :
    ∀ (k : Nat) (rest : List String) (c2 : Nat), k < rest.length →
      c2 ≤ (rest.getD k "").length →
      (pyJoin (rest.take k ++ [pyTake (rest.getD k "") c2])).data =
        ((pyJoin rest).data).take (charOffset rest k c2)
  | 0, [], c2, h, _ => by simp at h
  | 0, r0 :: rs, c2, _, hc2 => by
    rw [charOffset_zero, List.take_zero, List.nil_append,
      show (r0 :: rs).getD 0 "" = r0 from rfl]
    match rs with
    | [] => rfl
    | r1 :: rs' =>
      rw [pyJoin_cons r0 (r1 :: rs') (by simp), data_nl,
        show pyJoin [pyTake r0 c2] = pyTake r0 c2 from rfl,
        List.take_append_of_le_length (by simpa using hc2)]
      rfl
  | k + 1, [], c2, h, _ => by simp at h
  | k + 1, r0 :: rs, c2, h, hc2 => by
    have hk : k < rs.length := by simpa using h
    have hne : rs ≠ [] := List.ne_nil_of_length_pos (Nat.lt_of_le_of_lt (Nat.zero_le k) hk)
    rw [show (r0 :: rs).getD (k + 1) "" = rs.getD k "" from rfl] at hc2 ⊢
    rw [show (r0 :: rs).take (k + 1) ++ [pyTake (rs.getD k "") c2] =
      r0 :: (rs.take k ++ [pyTake (rs.getD k "") c2]) from rfl]
    rw [pyJoin_cons r0 _ (by simp), data_nl, pyJoin_cons r0 rs hne, data_nl,
      show charOffset (r0 :: rs) (k + 1) c2 = r0.length + 1 + charOffset rs k c2 from rfl,
      List.append_cons r0.data '\n' (pyJoin rs).data,
      show r0.length + 1 + charOffset rs k c2 =
        (r0.data ++ ['\n']).length + charOffset rs k c2 by simp,
      List.take_append, take_charOffset k rs c2 hk hc2]
    simp

/-- Multi-line slice: the code's joined `[start[col:], interior…, end[:endcol]]`
equals the corresponding contiguous character range of the joined source. -/
theorem multi_span (L : List String) (e c1 c2 : Nat) (he : 0 < e) (hlt : e < L.length)
    (hc1 : c1 ≤ (L.getD 0 "").length) (hc2 : c2 ≤ (L.getD e "").length) :
    (pyJoin (pyDrop (L.getD 0 "") c1 ::
      ((L.drop 1).take (e - 1) ++ [pyTake (L.getD e "") c2]))).data =
      (((pyJoin L).data).drop c1).take (charOffset L e c2 - c1) := by
  match L, e, he with
  | l0 :: rest, k + 1, _ =>
    have hk : k < rest.length := by simpa using hlt
    have hne : rest ≠ [] := List.ne_nil_of_length_pos (Nat.lt_of_le_of_lt (Nat.zero_le k) hk)
    rw [show (l0 :: rest).getD 0 "" = l0 from rfl] at hc1 ⊢
    rw [show (l0 :: rest).getD (k + 1) "" = rest.getD k "" from rfl] at hc2 ⊢
    rw [show (l0 :: rest).drop 1 = rest from rfl, Nat.add_sub_cancel]
    rw [pyJoin_cons (pyDrop l0 c1) _ (by simp), data_nl,
      pyJoin_cons l0 rest hne, data_nl,
      show charOffset (l0 :: rest) (k + 1) c2 = l0.length + 1 + charOffset rest k c2 from rfl,
      List.drop_append_of_le_length (show c1 ≤ l0.data.length from hc1),
      take_charOffset k rest c2 hk hc2]
    have hdropLen : (l0.data.drop c1).length = l0.data.length - c1 := List.length_drop ..
    rw [List.append_cons (l0.data.drop c1) '\n' (pyJoin rest).data,
      show l0.length + 1 + charOffset rest k c2 - c1 =
        ((l0.data.drop c1) ++ ['\n']).length + charOffset rest k c2 by
          simp [hdropLen]
          omega,
      List.take_append]
    simp [pyDrop]

/-- Same-line slice: the code's single-line column slice equals the
corresponding contiguous character range of the joined source. -/
theorem single_span (L : List String) (k c1 c2 : Nat) (hk : k < L.length)
    (hc1 : c1 ≤ (L.getD k "").length) (hc2 : c2 ≤ (L.getD k "").length) :
    (pySlice (L.getD k "") c1 c2).data =
      (((pyJoin L).data).drop (charOffset L k c1)).take
        (charOffset L k c2 - charOffset L k c1) := by
  have hsplit1 := charOffset_split k L k c1 (Nat.le_refl k)
  have hsplit2 := charOffset_split k L k c2 (Nat.le_refl k)
  rw [Nat.sub_self, charOffset_zero] at hsplit1
  rw [Nat.sub_self, charOffset_zero] at hsplit2
  rw [drop_charOffset k L c1 hk]
  rw [show charOffset L k c2 - charOffset L k c1 = c2 - c1 by omega]
  have hcons : L.drop k = L.getD k "" :: L.drop (k + 1) := by
    rw [List.drop_eq_getElem_cons hk, List.getD_eq_getElem?_getD,
      List.getElem?_eq_getElem hk]
    rfl
  rw [hcons]
  match hrs : L.drop (k + 1) with
  | [] =>
    rw [show pyJoin [L.getD k ""] = L.getD k "" from rfl]
    rfl
  | r1 :: rs' =>
    rw [pyJoin_cons _ (r1 :: rs') (by simp), data_nl,
      List.drop_append_of_le_length (show c1 ≤ (L.getD k "").data.length from hc1),
      List.take_append_of_le_length (by
        rw [List.length_drop]
        have hdata : (L.getD k "").data.length = (L.getD k "").length := rfl
        omega)]
    rfl

/-- Multi-line slice, stated for an arbitrary start line `s`: reduces to
`multi_span` on the lines from `s` on. -/
theorem multi_reduce (L : List String) (s e c1 c2 : Nat) (hse : s < e) (he : e < L.length)
    (hc1 : c1 ≤ (L.getD s "").length) (hc2 : c2 ≤ (L.getD e "").length) :
    (pyJoin (pyDrop (L.getD s "") c1 ::
      ((L.drop (s + 1)).take (e - (s + 1)) ++ [pyTake (L.getD e "") c2]))).data =
      (((pyJoin L).data).drop (charOffset L s c1)).take
        (charOffset L e c2 - charOffset L s c1) := by
  have hslt : s < L.length := by omega
  have hgd0 : L.getD s "" = (L.drop s).getD 0 "" := by
    rw [List.getD_eq_getElem?_getD, List.getD_eq_getElem?_getD, List.getElem?_drop]
    simp
  have hgde : L.getD e "" = (L.drop s).getD (e - s) "" := by
    rw [List.getD_eq_getElem?_getD, List.getD_eq_getElem?_getD, List.getElem?_drop,
      show s + (e - s) = e by omega]
  have hdrop1 : L.drop (s + 1) = (L.drop s).drop 1 := by
    rw [List.drop_drop, Nat.add_comm]
  have hidx : e - (s + 1) = e - s - 1 := by omega
  have hA := charOffset_split s L s c1 (Nat.le_refl s)
  rw [Nat.sub_self, charOffset_zero] at hA
  have hB := charOffset_split s L e c2 (Nat.le_of_lt hse)
  rw [hgd0, hgde, hdrop1, hidx, drop_charOffset s L c1 hslt,
    show charOffset L e c2 - charOffset L s c1 =
      charOffset (L.drop s) (e - s) c2 - c1 by omega]
  exact multi_span (L.drop s) (e - s) c1 c2 (by omega) (by rw [List.length_drop]; omega)
    (by rw [← hgd0]; exact hc1) (by rw [← hgde]; exact hc2)

/-- Claim C2: for a node with full position information (explicit end line
and end column) lying inside the source, `_get_node_source` returns,
byte-for-byte, the contiguous substring of the original source (the lines
rejoined with newlines) between the character offsets of `(lineno,
col_offset)` and `(end_lineno, end_col_offset)` — same-line spans are the
column slice of the single line, multi-line spans are the start line from its
start column, the interior lines verbatim, and the end line up to its end
column, joined by newlines.  This is the source text stored in every
`ClassRecord`/`CallableRecord` `content` field. -/
theorem c2_span_fidelity (sourceLines : List String) (p : Pos) (el ec : Nat)
    (hel : p.endLineno = some el) (hec : p.endColOffset = some ec)
    (h1 : 1 ≤ p.lineno) (hle : p.lineno ≤ el) (hub : el ≤ sourceLines.length)
    (hcs : p.colOffset ≤ (sourceLines.getD (p.lineno - 1) "").length)
    (hce : ec ≤ (sourceLines.getD (el - 1) "").length) :
    get_node_source sourceLines p =
      pySlice (pyJoin sourceLines) (charOffset sourceLines (p.lineno - 1) p.colOffset)
        (charOffset sourceLines (el - 1) ec) := by
  obtain ⟨ln, co, elo, eco⟩ := p
  simp only at hel hec h1 hle hcs hce
  subst hel
  subst hec
  apply string_ext
  have hlnlt : ln - 1 < sourceLines.length := by omega
  have hellt : el - 1 < sourceLines.length := by omega
  by_cases hse : ln - 1 = el - 1
  · rw [show get_node_source sourceLines ⟨ln, co, some el, some ec⟩ =
      pySlice (sourceLines.getD (ln - 1) "") co ec by
        simp [get_node_source, hse]]
    rw [← hse] at hce ⊢
    rw [show (pySlice (pyJoin sourceLines) (charOffset sourceLines (ln - 1) co)
        (charOffset sourceLines (ln - 1) ec)).data =
      (((pyJoin sourceLines).data).drop (charOffset sourceLines (ln - 1) co)).take
        (charOffset sourceLines (ln - 1) ec - charOffset sourceLines (ln - 1) co) from rfl]
    exact single_span sourceLines (ln - 1) co ec hlnlt hcs hce
  · have hlt : ln - 1 < el - 1 := by omega
    rw [show get_node_source sourceLines ⟨ln, co, some el, some ec⟩ =
      pyJoin (pyDrop (sourceLines.getD (ln - 1) "") co ::
        ((sourceLines.drop (ln - 1 + 1)).take (el - 1 - (ln - 1 + 1)) ++
          [pyTake (sourceLines.getD (el - 1) "") ec])) by
        simp [get_node_source, hse]]
    rw [show (pySlice (pyJoin sourceLines) (charOffset sourceLines (ln - 1) co)
        (charOffset sourceLines (el - 1) ec)).data =
      (((pyJoin sourceLines).data).drop (charOffset sourceLines (ln - 1) co)).take
        (charOffset sourceLines (el - 1) ec - charOffset sourceLines (ln - 1) co) from rfl]
    exact multi_reduce sourceLines (ln - 1) (el - 1) co ec hlt hellt hcs hce

/-- `c2_span_fidelity` at a concrete multi-line span inside
`["ab", "cd", "ef"]`. -/
theorem c2_span_fidelity_w :
    get_node_source c2Lines c2Pos =
      pySlice (pyJoin c2Lines) (charOffset c2Lines (c2Pos.lineno - 1) c2Pos.colOffset)
        (charOffset c2Lines (3 - 1) 1) :=
  c2_span_fidelity c2Lines c2Pos 3 1 rfl rfl (by decide) (by decide) (by decide)
    (by decide) (by decide)

/-- Appending to a fixed string on the left is injective. -/
theorem string_append_cancel (t a b : String) (h : t ++ a = t ++ b) : a = b := by
  apply string_ext
  have hd := congrArg String.data h
  rw [String.data_append, String.data_append] at hd
  exact List.append_cancel_left hd

/-- Two ids built over the same prefix but with tag strings differing at
their second character are distinct. -/
theorem append_tag_ne (p a b : String) (c₁ c₂ : Char) (r₁ r₂ : List Char) (hc : c₁ ≠ c₂)
    (t₁ t₂ : String) (h₁ : t₁.data = ':' :: c₁ :: r₁) (h₂ : t₂.data = ':' :: c₂ :: r₂) :
    p ++ t₁ ++ a ≠ p ++ t₂ ++ b := by
  intro h
  have hd := congrArg String.data h
  simp only [String.data_append, h₁, h₂, List.append_assoc, List.cons_append] at hd
  have h2 := List.append_cancel_left hd
  injection h2 with _ h3
  injection h3 with h4 _
  exact hc h4

/-- A list of characters followed by the first `'.'` determines the split:
if neither prefix contains `'.'`, equal concatenations force equal parts. -/
theorem dot_split :
    ∀ (x y as bs : List Char), ('.' : Char) ∉ x → ('.' : Char) ∉ y →
      x ++ '.' :: as = y ++ '.' :: bs → x = y ∧ as = bs
  | [], [], as, bs, _, _, h => by
    injection h with _ h2
    exact ⟨rfl, h2⟩
  | [], c :: y', as, bs, _, hy, h => by
    injection h with h1 _
    exact absurd (h1 ▸ List.mem_cons_self c y') hy
  | c :: x', [], as, bs, hx, _, h => by
    injection h with h1 _
    exact absurd (h1 ▸ List.mem_cons_self c x') hx
  | c :: x', d :: y', as, bs, hx, hy, h => by
    injection h with h1 h2
    have hrec := dot_split x' y' as bs (fun hm => hx (List.mem_cons_of_mem _ hm))
      (fun hm => hy (List.mem_cons_of_mem _ hm)) h2
    exact ⟨by rw [h1, hrec.1], hrec.2⟩

/-- Method ids determine their class and method names when class names are
dot-free. -/
theorem method_id_inj (p cn₁ cn₂ mn₁ mn₂ : String)
    (hd₁ : ('.' : Char) ∉ cn₁.data) (hd₂ : ('.' : Char) ∉ cn₂.data)
    (h : p ++ ":method:" ++ cn₁ ++ "." ++ mn₁ = p ++ ":method:" ++ cn₂ ++ "." ++ mn₂) :
    cn₁ = cn₂ ∧ mn₁ = mn₂ := by
  rw [String.append_assoc (p ++ ":method:") cn₁ ".", String.append_assoc (p ++ ":method:") _ mn₁,
    String.append_assoc (p ++ ":method:") cn₂ ".", String.append_assoc (p ++ ":method:") _ mn₂]
    at h
  have h1 := string_append_cancel _ _ _ h
  have hd := congrArg String.data h1
  rw [String.data_append, String.data_append, String.data_append, String.data_append] at hd
  rw [show (".".data) = ['.'] from rfl] at hd
  simp only [List.append_assoc, List.cons_append, List.nil_append] at hd
  obtain ⟨hc, hm⟩ := dot_split cn₁.data cn₂.data mn₁.data mn₂.data hd₁ hd₂ hd
  exact ⟨string_ext _ _ hc, string_ext _ _ hm⟩

/-- A class id never equals a method id. -/
theorem class_ne_method (p cn₁ cn₂ mn : String) :
    p ++ ":class:" ++ cn₁ ≠ p ++ ":method:" ++ cn₂ ++ "." ++ mn := by
  intro h
  rw [String.append_assoc (p ++ ":method:") cn₂ ".",
    String.append_assoc (p ++ ":method:") (cn₂ ++ ".") mn] at h
  exact append_tag_ne p cn₁ (cn₂ ++ "." ++ mn) 'c' 'm'
    ['l', 'a', 's', 's', ':'] ['e', 't', 'h', 'o', 'd', ':'] (by decide)
    ":class:" ":method:" rfl rfl h

/-- A class id never equals a function id. -/
theorem class_ne_function (p cn fn : String) :
    p ++ ":class:" ++ cn ≠ p ++ ":function:" ++ fn :=
  append_tag_ne p cn fn 'c' 'f'
    ['l', 'a', 's', 's', ':'] ['u', 'n', 'c', 't', 'i', 'o', 'n', ':'] (by decide)
    ":class:" ":function:" rfl rfl

/-- A method id never equals a function id. -/
theorem method_ne_function (p cn mn fn : String) :
    p ++ ":method:" ++ cn ++ "." ++ mn ≠ p ++ ":function:" ++ fn := by
  intro h
  rw [String.append_assoc (p ++ ":method:") cn ".",
    String.append_assoc (p ++ ":method:") (cn ++ ".") mn] at h
  exact append_tag_ne p (cn ++ "." ++ mn) fn 'm' 'f'
    ['e', 't', 'h', 'o', 'd', ':'] ['u', 'n', 'c', 't', 'i', 'o', 'n', ':'] (by decide)
    ":method:" ":function:" rfl rfl h

/-- Claim C3 counterexample: a file defining the same function name twice at
top level produces two chunks with the identical id
`a.py:function:f`, refuting chunk-id uniqueness within a repository run. -/
theorem c3_chunk_ids_cex :
    ¬ (((extract_chunks (parse_python_file "a.py" (Except.ok (c3Lines, c3Mod)))).map
        (fun ch => ch.id)).Nodup) := by decide

/-- Claim C3 (amended): chunk extraction is deterministic — it is a pure
function of the file structure, so two runs on identical input emit identical
chunk-id lists — and within one file's extraction all chunk ids are pairwise
distinct *provided* class names are pairwise distinct, each class's method
names are pairwise distinct, function names are pairwise distinct, and class
names contain no `'.'` (all guaranteed for names bound by distinct Python
identifiers in one scope); uniqueness fails without the distinctness
proviso, e.g. when the same function name is defined twice at top level (see
the counterexample). -/
theorem c3_chunk_ids_amended (fr : FileRecord)
    (h1 : ((fr.classes.getD []).map (fun c => c.name)).Nodup)
    (h2 : ∀ c ∈ fr.classes.getD [], (c.methods.map (fun m => m.name)).Nodup)
    (h3 : ((fr.functions.getD []).map (fun f => f.name)).Nodup)
    (h4 : ∀ c ∈ fr.classes.getD [], ('.' : Char) ∉ c.name.data) :
    (extract_chunks fr).map (fun ch => ch.id) = (extract_chunks fr).map (fun ch => ch.id) ∧
    ((extract_chunks fr).map (fun ch => ch.id)).Nodup := by
  refine ⟨rfl, ?_⟩
  have hids : (extract_chunks fr).map (fun ch => ch.id) =
      ((fr.classes.getD []).map (fun c =>
        (fr.filePath ++ ":class:" ++ c.name) ::
          c.methods.map (fun m =>
            fr.filePath ++ ":method:" ++ c.name ++ "." ++ m.name))).flatten ++
      (fr.functions.getD []).map (fun f => fr.filePath ++ ":function:" ++ f.name) := by
    simp only [extract_chunks, List.map_append, List.map_flatMap, List.map_flatten,
      List.map_cons, List.map_map, List.flatMap_def, Function.comp_def,
      mkClassChunk, mkMethodChunk, mkFuncChunk]
  rw [hids]
  set p := fr.filePath with hp
  apply List.Nodup.append
  · rw [List.nodup_flatten]
    constructor
    · intro l hl
      obtain ⟨c, hc, rfl⟩ := List.mem_map.mp hl
      rw [List.nodup_cons]
      constructor
      · intro hmem
        obtain ⟨m, _, hid⟩ := List.mem_map.mp hmem
        exact class_ne_method p c.name c.name m.name hid.symm
      · have hmn := h2 c hc
        have hinj : Function.Injective
            (fun n : String => p ++ ":method:" ++ c.name ++ "." ++ n) := by
          intro a b hab
          exact string_append_cancel (p ++ ":method:" ++ c.name ++ ".") a b hab
        have hres := hmn.map hinj
        rw [List.map_map] at hres
        exact hres
    · rw [List.pairwise_map]
      have hpw : (fr.classes.getD []).Pairwise (fun c₁ c₂ => c₁.name ≠ c₂.name) := by
        rw [List.Nodup, List.pairwise_map] at h1
        exact h1
      refine List.Pairwise.imp_of_mem ?_ hpw
      intro c₁ c₂ hc₁ hc₂ hne
      intro x hx₁ hx₂
      rcases List.mem_cons.mp hx₁ with hcid₁ | hmid₁
      · rcases List.mem_cons.mp hx₂ with hcid₂ | hmid₂
        · rw [hcid₁] at hcid₂
          exact hne (string_append_cancel (p ++ ":class:") c₁.name c₂.name hcid₂)
        · obtain ⟨m, _, hid⟩ := List.mem_map.mp hmid₂
          rw [hcid₁] at hid
          exact class_ne_method p c₁.name c₂.name m.name hid.symm
      · rcases List.mem_cons.mp hx₂ with hcid₂ | hmid₂
        · obtain ⟨m, _, hid⟩ := List.mem_map.mp hmid₁
          rw [hcid₂] at hid
          exact class_ne_method p c₂.name c₁.name m.name hid.symm
        · obtain ⟨m₁, _, hid₁⟩ := List.mem_map.mp hmid₁
          obtain ⟨m₂, _, hid₂⟩ := List.mem_map.mp hmid₂
          have heq : p ++ ":method:" ++ c₁.name ++ "." ++ m₁.name =
              p ++ ":method:" ++ c₂.name ++ "." ++ m₂.name := by
            rw [hid₁, hid₂]
          exact hne (method_id_inj p c₁.name c₂.name m₁.name m₂.name
            (h4 c₁ hc₁) (h4 c₂ hc₂) heq).1
  · have hinj : Function.Injective (fun n : String => p ++ ":function:" ++ n) := by
      intro a b hab
      exact string_append_cancel (p ++ ":function:") a b hab
    have hres := h3.map hinj
    rw [List.map_map] at hres
    exact hres
  · intro x hx₁ hx₂
    obtain ⟨l, hl, hxl⟩ := List.mem_flatten.mp hx₁
    obtain ⟨c, _, rfl⟩ := List.mem_map.mp hl
    obtain ⟨f, _, hfid⟩ := List.mem_map.mp hx₂
    rcases List.mem_cons.mp hxl with hcid | hmid
    · rw [hcid] at hfid
      exact class_ne_function p c.name f.name hfid.symm
    · obtain ⟨m, _, hid⟩ := List.mem_map.mp hmid
      rw [← hid] at hfid
      exact method_ne_function p c.name m.name f.name hfid.symm

/-- `c3_chunk_ids_amended` at a concrete file record with distinct dot-free
names: one class `A` with methods `f`, `g` and one function `h`. -/
theorem c3_chunk_ids_amended_w :
    ((extract_chunks c3Rec).map (fun ch => ch.id)).Nodup :=
  (c3_chunk_ids_amended c3Rec (by decide) (by decide) (by decide) (by decide)).2

end CodeParser
